import Mathlib

/-!
Verification of the BeePlan scheduling engine (`scheduler.py`, `models.py`).

The engine assigns courses to a fixed 5-day × 8-slot weekly grid via a greedy
placement pass and then re-derives a conflict list with a validator pass.
All definitions below are a shallow embedding of the Python source:
Python dictionaries become total functions with overwrite-on-update,
`None` becomes `Option`, and the two passes become folds over the concrete
day/time-slot lists, threading explicit state.
-/

namespace BeePlan

/-- `models.py` Instructor dataclass. -/
structure Instructor where
  id : Int
  name : String
  availability : List String
deriving DecidableEq

/-- `models.py` Room dataclass. -/
structure Room where
  id : String
  capacity : Int
  is_lab : Bool
deriving DecidableEq

/-- `models.py` Course dataclass. -/
structure Course where
  code : String
  name : String
  instructor_id : Int
  duration_hours : Int
  is_lab : Bool
  requires_projector : Bool
  year : Int
deriving DecidableEq

/-- `models.py` ScheduleSlot dataclass. -/
structure ScheduleSlot where
  day : String
  time_slot : String
  course : Option Course
  room : Option Room
  has_conflict : Bool
deriving DecidableEq

/-- The five weekday names, in the order `Scheduler.__init__` lists them. -/
def days : List String :=
  ["Monday", "Tuesday", "Wednesday", "Thursday", "Friday"]

/-- The eight canonical time-slot labels, in the order `Scheduler.__init__` lists them. -/
def timeSlots : List String :=
  ["08:30 - 09:20", "09:30 - 10:20", "10:30 - 11:20", "11:30 - 12:20",
   "13:20 - 14:10", "14:20 - 15:10", "15:20 - 16:10", "16:20 - 17:10"]

/-- The schedule grid `self.schedule`: a nested dict day → time slot → slot,
modelled as a total function (only keys in `days × timeSlots` are ever read). -/
def Grid := String → String → ScheduleSlot

/-- The empty grid built by `Scheduler.__init__`. -/
def initGrid : Grid := fun d t => ⟨d, t, none, none, false⟩

/-- Overwrite one grid cell (Python dict entry assignment / slot mutation). -/
def setSlot (g : Grid) (d t : String) (s : ScheduleSlot) : Grid :=
  fun d' t' => if d' = d ∧ t' = t then s else g d' t'

/-- The dict `self.instructors = {inst.id: inst}`: later entries overwrite
earlier ones, lookup of a missing id gives `none` (`dict.get`). -/
def getInstructor (instructors : List Instructor) (iid : Int) : Option Instructor :=
  instructors.foldl (fun acc inst => if inst.id = iid then some inst else acc) none

/-- A conflict record appended to `self.conflicts` (a Python dict with a
`"type"` tag; the three shapes the code constructs). -/
inductive Conflict where
  | unplacedCourse (course : String) (message : String)
  | instructorOverlap (course : String) (instructor : Int) (day : String)
      (time : String) (message : String)
  | capacityViolation (course : String) (room : String) (capacity : Int)
      (message : String)
deriving DecidableEq

/-- Recognizer for `"type": "unplaced_course"` records. -/
def Conflict.isUnplaced : Conflict → Bool
  | .unplacedCourse _ _ => true
  | _ => false

/-- Recognizer for `"type": "instructor_overlap"` records. -/
def Conflict.isOverlap : Conflict → Bool
  | .instructorOverlap _ _ _ _ _ => true
  | _ => false

/-- Python `code.replace('L', '')`: remove every `'L'` character (all
occurrences, not only trailing ones). -/
def removeAllL (s : String) : String :=
  String.mk (s.data.filter (fun ch => ch ≠ 'L'))

/-- Python `str.strip()`: drop whitespace from both ends. -/
def stripEnds (s : String) : String :=
  String.mk (((s.data.dropWhile Char.isWhitespace).reverse.dropWhile
    Char.isWhitespace).reverse)

/-- Python `str.startswith`: the second string is an initial segment of the
first. -/
def codeStartsWith (s pre : String) : Bool :=
  pre.data.isPrefixOf s.data

/-- `Scheduler._find_theory_course`: strip every `'L'` from the lab's code
(Python `str.replace` replaces all occurrences) and strip whitespace, then
search for a non-lab course of the same instructor with an exact-code
match, else one whose code starts with the base. -/
def findTheoryCourse (courses : List Course) (labCourse : Course) : Option Course :=
  let labCodeBase := stripEnds (removeAllL labCourse.code)
  match courses.find? (fun c =>
      !c.is_lab && c.code = labCodeBase && c.instructor_id = labCourse.instructor_id) with
  | some c => some c
  | none => courses.find? (fun c =>
      !c.is_lab && codeStartsWith c.code labCodeBase &&
        c.instructor_id = labCourse.instructor_id)

/-- `Scheduler._lab_follows_theory`: find the first slot of the day holding
the theory course; the candidate index must be strictly later. -/
def labFollowsTheory (g : Grid) (d : String) (timeIdx : Nat) (theory : Course) : Bool :=
  match timeSlots.enum.find? (fun p => (g d p.2).course = some theory) with
  | some p => decide (p.1 < timeIdx)
  | none => false

/-- `Scheduler._is_instructor_available`: unknown instructor ids count as
unavailable on every day. -/
def isInstructorAvailable (instructors : List Instructor) (iid : Int) (d : String) : Bool :=
  match getInstructor instructors iid with
  | none => false
  | some inst => d ∈ inst.availability

/-- `Scheduler._is_room_available`: the slot holds no course. -/
def isRoomAvailable (g : Grid) (d t : String) : Bool :=
  (g d t).course = none

/-- `Scheduler._find_suitable_room`: first room whose lab flag matches the
course, whose capacity is ≤ 40 when the course is a lab, and which is free. -/
def findSuitableRoom (rooms : List Room) (g : Grid) (c : Course) (d t : String) : Option Room :=
  rooms.find? (fun r =>
    c.is_lab = r.is_lab && !(c.is_lab && decide (r.capacity > 40)) && isRoomAvailable g d t)

/-- The running `instructor_daily_hours` dict: instructor id → day → count,
with absent keys reading as 0. -/
def Hours := Int → String → Nat

/-- `Scheduler._check_instructor_daily_limit`: absent keys pass; otherwise
the count must be under 4. -/
def checkInstructorDailyLimit (h : Hours) (iid : Int) (d : String) : Bool :=
  decide (h iid d < 4)

/-- Substring test, modelling Python's `"CENG" in code_upper`. -/
def containsSub (s pat : String) : Bool :=
  (List.range (s.length + 1)).any (fun i =>
    (s.toList.drop i).take pat.length = pat.toList)

/-- `Scheduler._check_elective_constraints`: year-3/year-4 segregation and
CENG/SENG segregation against the slot's current occupant. -/
def checkElectiveConstraints (g : Grid) (c : Course) (d t : String) : Bool :=
  match (g d t).course with
  | none => true
  | some other =>
    if c.year = 3 ∧ other.year = 4 then false
    else if c.year = 4 ∧ other.year = 3 then false
    else
      let cu := c.code.toUpper
      let ou := other.code.toUpper
      let isCeng := containsSub cu "CENG"
      let isSeng := containsSub cu "SENG"
      let otherCeng := containsSub ou "CENG"
      let otherSeng := containsSub ou "SENG"
      !((isCeng && otherSeng) || (isSeng && otherCeng))

/-- State threaded through the placement loop of `generate_schedule`:
the grid, the `instructor_daily_hours` dict and `self.conflicts`. -/
structure PlaceState where
  grid : Grid
  hours : Hours
  conflicts : List Conflict

/-- The inner time-slot scan of `generate_schedule` for a fixed day `d`:
walk the indexed time slots and return the first `(index, slot, room)`
passing every check, in the source's check order. -/
def findSlotInDay (rooms : List Room) (st : PlaceState) (c : Course)
    (theory : Option Course) (d : String) :
    List (Nat × String) → Option (Nat × String × Room)
  | [] => none
  | (i, t) :: rest =>
    if d = "Friday" ∧ (i = 4 ∨ i = 5) then
      findSlotInDay rooms st c theory d rest
    else if (st.grid d t).course ≠ none then
      findSlotInDay rooms st c theory d rest
    else if c.is_lab &&
        (match theory with
         | some th => !labFollowsTheory st.grid d i th
         | none => false) then
      findSlotInDay rooms st c theory d rest
    else
      match findSuitableRoom rooms st.grid c d t with
      | none => findSlotInDay rooms st c theory d rest
      | some room =>
        if !c.is_lab && !checkInstructorDailyLimit st.hours c.instructor_id d then
          findSlotInDay rooms st c theory d rest
        else if !checkElectiveConstraints st.grid c d t then
          findSlotInDay rooms st c theory d rest
        else
          some (i, t, room)

/-- The day scan of `generate_schedule`: skip days the instructor is not
available on, otherwise try the time slots of the day. -/
def findPlacement (rooms : List Room) (instructors : List Instructor)
    (st : PlaceState) (c : Course) (theory : Option Course) :
    List String → Option (String × Nat × String × Room)
  | [] => none
  | d :: rest =>
    if !isInstructorAvailable instructors c.instructor_id d then
      findPlacement rooms instructors st c theory rest
    else
      match findSlotInDay rooms st c theory d timeSlots.enum with
      | some (i, t, room) => some (d, i, t, room)
      | none => findPlacement rooms instructors st c theory rest

/-- Bump the daily-hours counter for one instructor on one day. -/
def bumpHours (h : Hours) (iid : Int) (d : String) : Hours :=
  fun iid' d' => if iid' = iid ∧ d' = d then h iid d + 1 else h iid' d'

/-- One iteration of the course loop of `generate_schedule`: resolve the
theory pairing for labs, scan for a placement, commit it (updating the
daily counter for theory courses) or append an `unplaced_course` conflict. -/
def placeCourse (courses : List Course) (rooms : List Room)
    (instructors : List Instructor) (st : PlaceState) (c : Course) : PlaceState :=
  let theory := if c.is_lab then findTheoryCourse courses c else none
  match findPlacement rooms instructors st c theory days with
  | some (d, _, t, room) =>
    let slot := st.grid d t
    { grid := setSlot st.grid d t { slot with course := some c, room := some room }
      hours := if c.is_lab then st.hours else bumpHours st.hours c.instructor_id d
      conflicts := st.conflicts }
  | none =>
    { grid := st.grid
      hours := st.hours
      conflicts := st.conflicts ++
        [Conflict.unplacedCourse c.code ("Could not place " ++ c.code)] }

/-- The sort key comparison of `generate_schedule`: the tuple
`(is_lab, year)` with `False < True`, non-strict for stable insertion. -/
def courseLe (a b : Course) : Bool :=
  if a.is_lab = b.is_lab then decide (a.year ≤ b.year) else !a.is_lab

/-- Stable insertion into an already sorted course list. -/
def insertCourse (a : Course) : List Course → List Course
  | [] => [a]
  | b :: l => if courseLe a b then a :: b :: l else b :: insertCourse a l

/-- Python's stable `sorted(self.courses, key=lambda c: (c.is_lab, c.year))`,
as a stable insertion sort. -/
def sortCourses (l : List Course) : List Course :=
  l.foldr insertCourse []

/-- The whole placement phase of `generate_schedule`, before the final
call to the validator: fold the course loop over the sorted courses,
starting from the freshly initialized engine state. -/
def placePhase (courses : List Course) (rooms : List Room)
    (instructors : List Instructor) : PlaceState :=
  (sortCourses courses).foldl (placeCourse courses rooms instructors)
    ⟨initGrid, fun _ _ => 0, []⟩

/-- State threaded through `_validate_schedule`: the grid (whose
`has_conflict` flags are mutated in place), the `instructor_schedule`
dict (absent ≠ present-empty) and the conflict list being rebuilt. -/
structure VState where
  grid : Grid
  instSched : Int → Option (List (String × String))
  conflicts : List Conflict

/-- Overwrite one entry of the `instructor_schedule` dict. -/
def setISched (f : Int → Option (List (String × String))) (iid : Int)
    (v : List (String × String)) : Int → Option (List (String × String)) :=
  fun j => if j = iid then some v else f j

/-- The instructor double-booking check of the validator's slot loop:
on the first sight of an instructor nothing is checked; otherwise an
`instructor_overlap` is emitted if this exact `(day, time)` pair was
recorded for them before (the loop breaks after the first match, so at
most one conflict is appended per slot). -/
def overlapCheck (isched : Int → Option (List (String × String)))
    (conflicts : List Conflict) (c : Course) (p : String × String) : List Conflict :=
  match isched c.instructor_id with
  | none => conflicts
  | some l =>
    if (p.1, p.2) ∈ l then
      conflicts ++
        [Conflict.instructorOverlap c.code c.instructor_id p.1 p.2
          ("Instructor " ++ toString c.instructor_id ++ " double-booked at "
            ++ p.1 ++ " " ++ p.2)]
    else conflicts

/-- The room-capacity check of the validator's slot loop: a lab course in
a room of capacity over 40 yields a `capacity_violation`. -/
def capacityCheck (conflicts : List Conflict) (c : Course) (room : Option Room) :
    List Conflict :=
  match room with
  | some r =>
    if c.is_lab ∧ r.capacity > 40 then
      conflicts ++
        [Conflict.capacityViolation c.code r.id r.capacity
          ("Lab room " ++ r.id ++ " exceeds 40 student capacity")]
    else conflicts
  | none => conflicts

/-- The pairs recorded so far for an instructor (empty when absent). -/
def prevPairs (isched : Int → Option (List (String × String))) (iid : Int) :
    List (String × String) :=
  match isched iid with
  | none => []
  | some l => l

/-- The body of the validator's slot loop for one `(day, time)` cell:
skip empty slots; run the double-booking check; record the `(day, time)`
pair for the instructor; run the capacity check; finally, if any conflict
has been recorded so far in the run, set this slot's `has_conflict` flag. -/
def validateStep (st : VState) (p : String × String) : VState :=
  match (st.grid p.1 p.2).course with
  | none => st
  | some c =>
    let conflicts2 :=
      capacityCheck (overlapCheck st.instSched st.conflicts c p) c (st.grid p.1 p.2).room
    let isched1 := setISched st.instSched c.instructor_id
      (prevPairs st.instSched c.instructor_id ++ [(p.1, p.2)])
    let grid1 :=
      if conflicts2 ≠ [] then
        setSlot st.grid p.1 p.2 { st.grid p.1 p.2 with has_conflict := true }
      else st.grid
    ⟨grid1, isched1, conflicts2⟩

/-- The `(day, time)` cells in the validator's (and importer's) scan
order: days outer, time slots inner. -/
def allCells : List (String × String) :=
  days.flatMap (fun d => timeSlots.map (fun t => (d, t)))

/-- Fold of the validator body over a cell list. -/
def validateCells (cells : List (String × String)) (st : VState) : VState :=
  cells.foldl validateStep st

/-- `Scheduler._validate_schedule`: reset `self.conflicts` to empty (the
first statement of the method), then scan every cell. Returns the updated
grid and the rebuilt conflict list. -/
def validateSchedule (g : Grid) : Grid × List Conflict :=
  let st := validateCells allCells ⟨g, fun _ => none, []⟩
  (st.grid, st.conflicts)

/-- `Scheduler.generate_schedule` end to end: run the placement phase,
then the validator (which replaces the conflict list), and return the
final grid, the final conflict list and the success flag
`len(self.conflicts) == 0`. -/
def generateSchedule (courses : List Course) (rooms : List Room)
    (instructors : List Instructor) : Grid × List Conflict × Bool :=
  let p := placePhase courses rooms instructors
  let v := validateSchedule p.grid
  (v.1, v.2, v.2.isEmpty)

/-! ### Basic lemmas about the grid and the concrete day/slot lists -/

theorem setSlot_same (g : Grid) (d t : String) (s : ScheduleSlot) :
    setSlot g d t s d t = s := by
  simp [setSlot]

theorem setSlot_ne (g : Grid) (d t : String) (s : ScheduleSlot) (d' t' : String)
    (h : ¬(d' = d ∧ t' = t)) : setSlot g d t s d' t' = g d' t' := by
  simp only [setSlot, if_neg h]

theorem timeSlots_nodup : timeSlots.Nodup := by decide

theorem allCells_nodup : allCells.Nodup := by decide

/-- Unpacking membership in the indexed time-slot list: the slot string is a
genuine time slot and the index is its (unique) position. -/
theorem enum_timeSlots_facts {i : Nat} {t : String} (h : (i, t) ∈ timeSlots.enum) :
    t ∈ timeSlots ∧ timeSlots.indexOf t = i := by
  have he : timeSlots.enum =
      [(0, "08:30 - 09:20"), (1, "09:30 - 10:20"), (2, "10:30 - 11:20"),
       (3, "11:30 - 12:20"), (4, "13:20 - 14:10"), (5, "14:20 - 15:10"),
       (6, "15:20 - 16:10"), (7, "16:20 - 17:10")] := rfl
  rw [he] at h
  simp only [List.mem_cons, List.not_mem_nil, or_false, Prod.mk.injEq] at h
  rcases h with hc | hc | hc | hc | hc | hc | hc | hc <;>
    (obtain ⟨rfl, rfl⟩ := hc; exact ⟨by decide, by decide⟩)

/-- Unfolding equation for the inner scan on a cons cell. -/
theorem findSlotInDay_cons (rooms : List Room) (st : PlaceState) (c : Course)
    (theory : Option Course) (d : String) (j : Nat) (s : String)
    (rest : List (Nat × String)) :
    findSlotInDay rooms st c theory d ((j, s) :: rest) =
      (if d = "Friday" ∧ (j = 4 ∨ j = 5) then
        findSlotInDay rooms st c theory d rest
      else if (st.grid d s).course ≠ none then
        findSlotInDay rooms st c theory d rest
      else if c.is_lab &&
          (match theory with
           | some th => !labFollowsTheory st.grid d j th
           | none => false) then
        findSlotInDay rooms st c theory d rest
      else
        match findSuitableRoom rooms st.grid c d s with
        | none => findSlotInDay rooms st c theory d rest
        | some room =>
          if !c.is_lab && !checkInstructorDailyLimit st.hours c.instructor_id d then
            findSlotInDay rooms st c theory d rest
          else if !checkElectiveConstraints st.grid c d s then
            findSlotInDay rooms st c theory d rest
          else
            some (j, s, room)) := rfl

/-- Unfolding equation for the day scan on a cons cell. -/
theorem findPlacement_cons (rooms : List Room) (instructors : List Instructor)
    (st : PlaceState) (c : Course) (theory : Option Course) (d0 : String)
    (rest : List String) :
    findPlacement rooms instructors st c theory (d0 :: rest) =
      (if !isInstructorAvailable instructors c.instructor_id d0 then
        findPlacement rooms instructors st c theory rest
      else
        match findSlotInDay rooms st c theory d0 timeSlots.enum with
        | some (i, t, room) => some (d0, i, t, room)
        | none => findPlacement rooms instructors st c theory rest) := rfl

/-! ### What a successful placement scan guarantees -/

/-- Everything the inner time-slot scan checked when it returned a slot. -/
theorem findSlotInDay_spec {rooms : List Room} {st : PlaceState} {c : Course}
    {theory : Option Course} {d : String} {l : List (Nat × String)}
    {i : Nat} {t : String} {room : Room}
    (h : findSlotInDay rooms st c theory d l = some (i, t, room)) :
    (i, t) ∈ l ∧ ¬(d = "Friday" ∧ (i = 4 ∨ i = 5)) ∧ (st.grid d t).course = none ∧
    (∀ th, c.is_lab = true → theory = some th →
      labFollowsTheory st.grid d i th = true) ∧
    (c.is_lab = false → st.hours c.instructor_id d < 4) := by
  induction l with
  | nil => simp [findSlotInDay] at h
  | cons p rest ih =>
    obtain ⟨j, s⟩ := p
    rw [findSlotInDay_cons] at h
    split at h
    · exact ⟨List.mem_cons_of_mem _ (ih h).1, (ih h).2⟩
    · next hfri =>
      split at h
      · exact ⟨List.mem_cons_of_mem _ (ih h).1, (ih h).2⟩
      · next hocc =>
        split at h
        · exact ⟨List.mem_cons_of_mem _ (ih h).1, (ih h).2⟩
        · next hlab =>
          split at h
          · exact ⟨List.mem_cons_of_mem _ (ih h).1, (ih h).2⟩
          · next r hroom =>
            split at h
            · exact ⟨List.mem_cons_of_mem _ (ih h).1, (ih h).2⟩
            · next hlim =>
              split at h
              · exact ⟨List.mem_cons_of_mem _ (ih h).1, (ih h).2⟩
              · next hel =>
                rw [Option.some.injEq] at h
                simp only [Prod.mk.injEq] at h
                obtain ⟨rfl, rfl, rfl⟩ := h
                refine ⟨List.mem_cons_self .., hfri, ?_, ?_, ?_⟩
                · simpa using hocc
                · intro th hclab hth
                  rw [hth] at hlab
                  simpa [hclab] using hlab
                · intro hclab
                  simpa [hclab, checkInstructorDailyLimit] using hlim

/-- Everything the day scan guarantees when it returns a placement. -/
theorem findPlacement_spec {rooms : List Room} {instructors : List Instructor}
    {st : PlaceState} {c : Course} {theory : Option Course} {dl : List String}
    {d : String} {i : Nat} {t : String} {room : Room}
    (h : findPlacement rooms instructors st c theory dl = some (d, i, t, room)) :
    d ∈ dl ∧ isInstructorAvailable instructors c.instructor_id d = true ∧
    findSlotInDay rooms st c theory d timeSlots.enum = some (i, t, room) := by
  induction dl with
  | nil => simp [findPlacement] at h
  | cons d0 rest ih =>
    rw [findPlacement_cons] at h
    split at h
    · exact ⟨List.mem_cons_of_mem _ (ih h).1, (ih h).2⟩
    · next havail =>
      split at h
      · next i' t' room' hfs =>
        rw [Option.some.injEq] at h
        simp only [Prod.mk.injEq] at h
        obtain ⟨rfl, rfl, rfl, rfl⟩ := h
        exact ⟨List.mem_cons_self .., by simpa using havail, hfs⟩
      · next hfs =>
        exact ⟨List.mem_cons_of_mem _ (ih h).1, (ih h).2⟩

/-! ### Frame lemmas for the validator -/

/-- A validator step either leaves the grid alone or only turns on the
`has_conflict` flag of the slot it is visiting. -/
theorem validateStep_grid_eq (st : VState) (p : String × String) :
    (validateStep st p).grid = st.grid ∨
    (validateStep st p).grid =
      setSlot st.grid p.1 p.2 { st.grid p.1 p.2 with has_conflict := true } := by
  cases hco : (st.grid p.1 p.2).course with
  | none =>
    simp only [validateStep, hco]
    exact Or.inl trivial
  | some c =>
    simp only [validateStep, hco]
    split
    · exact Or.inr rfl
    · exact Or.inl rfl

/-- Turning on a flag changes no other field of any slot. -/
theorem setSlot_flag_fields (g : Grid) (a b d t : String) :
    ((setSlot g a b { g a b with has_conflict := true }) d t).course = (g d t).course ∧
    ((setSlot g a b { g a b with has_conflict := true }) d t).room = (g d t).room ∧
    ((setSlot g a b { g a b with has_conflict := true }) d t).day = (g d t).day ∧
    ((setSlot g a b { g a b with has_conflict := true }) d t).time_slot =
      (g d t).time_slot := by
  unfold setSlot
  split
  · next h =>
    obtain ⟨rfl, rfl⟩ := h
    exact ⟨rfl, rfl, rfl, rfl⟩
  · exact ⟨rfl, rfl, rfl, rfl⟩

/-- A validator step preserves every slot's course, room, day and time. -/
theorem validateStep_fields (st : VState) (p : String × String) (d t : String) :
    ((validateStep st p).grid d t).course = (st.grid d t).course ∧
    ((validateStep st p).grid d t).room = (st.grid d t).room ∧
    ((validateStep st p).grid d t).day = (st.grid d t).day ∧
    ((validateStep st p).grid d t).time_slot = (st.grid d t).time_slot := by
  rcases validateStep_grid_eq st p with h | h <;> rw [h]
  · exact ⟨rfl, rfl, rfl, rfl⟩
  · exact setSlot_flag_fields st.grid p.1 p.2 d t

/-- A validator step does not touch cells other than the one it visits. -/
theorem validateStep_grid_other (st : VState) (p : String × String) (d t : String)
    (h : ¬(d = p.1 ∧ t = p.2)) : (validateStep st p).grid d t = st.grid d t := by
  rcases validateStep_grid_eq st p with he | he <;> rw [he]
  exact setSlot_ne _ _ _ _ _ _ h

/-- Fold version of `validateStep_fields`. -/
theorem validateCells_fields (cells : List (String × String)) (st : VState)
    (d t : String) :
    ((validateCells cells st).grid d t).course = (st.grid d t).course ∧
    ((validateCells cells st).grid d t).room = (st.grid d t).room ∧
    ((validateCells cells st).grid d t).day = (st.grid d t).day ∧
    ((validateCells cells st).grid d t).time_slot = (st.grid d t).time_slot := by
  induction cells generalizing st with
  | nil => exact ⟨rfl, rfl, rfl, rfl⟩
  | cons p rest ih =>
    have h1 := validateStep_fields st p d t
    have h2 := ih (validateStep st p)
    simp only [validateCells, List.foldl_cons] at h2 ⊢
    exact ⟨h2.1.trans h1.1, h2.2.1.trans h1.2.1, h2.2.2.1.trans h1.2.2.1,
      h2.2.2.2.trans h1.2.2.2⟩

/-- Folding validator steps over cells not containing `(d, t)` leaves the
slot `(d, t)` entirely unchanged. -/
theorem validateCells_grid_other (cells : List (String × String)) (st : VState)
    (d t : String) (h : (d, t) ∉ cells) :
    (validateCells cells st).grid d t = st.grid d t := by
  induction cells generalizing st with
  | nil => rfl
  | cons p rest ih =>
    simp only [List.mem_cons, not_or] at h
    have hne : ¬(d = p.1 ∧ t = p.2) := by
      intro ⟨h1, h2⟩
      exact h.1 (by rw [h1, h2])
    simp only [validateCells, List.foldl_cons] at ih ⊢
    rw [ih (validateStep st p) h.2, validateStep_grid_other st p d t hne]

/-- If the cell being visited is occupied and the conflict list right after
the step is non-empty, the step turns the cell's flag on. -/
theorem validateStep_sets_flag (st : VState) (p : String × String)
    (hocc : (st.grid p.1 p.2).course ≠ none)
    (hconf : (validateStep st p).conflicts ≠ []) :
    ((validateStep st p).grid p.1 p.2).has_conflict = true := by
  cases hco : (st.grid p.1 p.2).course with
  | none => exact absurd hco hocc
  | some c =>
    simp only [validateStep, hco] at hconf ⊢
    split
    · rw [setSlot_same]
    · next hne => exact absurd hconf hne

/-- The validator's conflict list and instructor-bookkeeping depend only on
the course and room contents of the grid, not on the flags. -/
theorem validateStep_congr (st st' : VState) (p : String × String)
    (hgc : (st.grid p.1 p.2).course = (st'.grid p.1 p.2).course)
    (hgr : (st.grid p.1 p.2).room = (st'.grid p.1 p.2).room)
    (hi : st.instSched = st'.instSched) (hc : st.conflicts = st'.conflicts) :
    (validateStep st p).conflicts = (validateStep st' p).conflicts ∧
    (validateStep st p).instSched = (validateStep st' p).instSched := by
  cases hco : (st.grid p.1 p.2).course with
  | none =>
    simp only [validateStep, hco, hgc.symm.trans hco]
    exact ⟨hc, hi⟩
  | some c =>
    simp only [validateStep, hco, hgc.symm.trans hco]
    rw [hi, hc, hgr]
    exact ⟨rfl, rfl⟩

/-- Fold version of `validateStep_congr`. -/
theorem validateCells_congr (cells : List (String × String)) (st st' : VState)
    (hg : ∀ d t, (st.grid d t).course = (st'.grid d t).course ∧
      (st.grid d t).room = (st'.grid d t).room)
    (hi : st.instSched = st'.instSched) (hc : st.conflicts = st'.conflicts) :
    (validateCells cells st).conflicts = (validateCells cells st').conflicts := by
  induction cells generalizing st st' with
  | nil => exact hc
  | cons p rest ih =>
    simp only [validateCells, List.foldl_cons] at ih ⊢
    have hstep := validateStep_congr st st' p (hg p.1 p.2).1 (hg p.1 p.2).2 hi hc
    refine ih (validateStep st p) (validateStep st' p) ?_ hstep.2 hstep.1
    intro d t
    have h1 := validateStep_fields st p d t
    have h2 := validateStep_fields st' p d t
    exact ⟨h1.1.trans ((hg d t).1.trans h2.1.symm),
      h1.2.1.trans ((hg d t).2.trans h2.2.1.symm)⟩

/-! ### Sample data used by concrete counterexamples and witnesses -/

/-- A plain theory course (instructor 1). -/
def sampleTheory : Course := ⟨"AAA", "Course A", 1, 1, false, false, 1⟩

/-- A lab course (instructor 1). -/
def sampleLab : Course := ⟨"CS101L", "CS101 Lab", 1, 2, true, false, 1⟩

/-- A theory room. -/
def okRoom : Room := ⟨"A101", 50, false⟩

/-- An over-capacity lab room (capacity 50 > 40). -/
def bigLabRoom : Room := ⟨"BIG", 50, true⟩

/-- A grid produced by external import: a harmless entry at Monday 08:30
followed (in scan order) by a lab in an over-capacity room at Monday 09:30. -/
def conflictedGrid : Grid :=
  setSlot
    (setSlot initGrid "Monday" "08:30 - 09:20"
      { initGrid "Monday" "08:30 - 09:20" with
          course := some sampleTheory, room := some okRoom })
    "Monday" "09:30 - 10:20"
    { initGrid "Monday" "09:30 - 10:20" with
        course := some sampleLab, room := some bigLabRoom }

/-- The grid component of a validator run, unfolded. -/
theorem validateSchedule_fst (g : Grid) :
    (validateSchedule g).1 = (validateCells allCells ⟨g, fun _ => none, []⟩).grid := rfl

/-- The conflict-list component of a validator run, unfolded. -/
theorem validateSchedule_snd (g : Grid) :
    (validateSchedule g).2 = (validateCells allCells ⟨g, fun _ => none, []⟩).conflicts := rfl

/-! ### C10 and C9: the validator as a pure re-derivation -/

/-- C10: a validator run never changes the course or room assignment of any
slot, and never adds or removes slots (the grid stays keyed by the same
`(day, time_slot)` pairs, with each slot's `day` and `time_slot` fields
unchanged); only the conflict list and the `has_conflict` flags may change. -/
theorem claim_C10_validator_frame : ∀ (g : Grid) (d t : String),
    (((validateSchedule g).1) d t).course = (g d t).course ∧
    (((validateSchedule g).1) d t).room = (g d t).room ∧
    (((validateSchedule g).1) d t).day = (g d t).day ∧
    (((validateSchedule g).1) d t).time_slot = (g d t).time_slot := by
  intro g d t
  rw [validateSchedule_fst]
  exact validateCells_fields allCells ⟨g, fun _ => none, []⟩ d t

/-- C9: running the validator twice in succession with no intervening
mutation produces the same conflict list, element-wise and in order. -/
theorem claim_C9_idempotent_validation : ∀ g : Grid,
    (validateSchedule ((validateSchedule g).1)).2 = (validateSchedule g).2 := by
  intro g
  rw [validateSchedule_snd, validateSchedule_snd]
  exact validateCells_congr allCells
    ⟨(validateSchedule g).1, fun _ => none, []⟩ ⟨g, fun _ => none, []⟩
    (fun d t => by
      rw [validateSchedule_fst]
      exact ⟨(validateCells_fields allCells ⟨g, fun _ => none, []⟩ d t).1,
        (validateCells_fields allCells ⟨g, fun _ => none, []⟩ d t).2.1⟩)
    rfl rfl

/-! ### C2: which slots get their `has_conflict` flag set -/

/-- C2 (amended): if an occupied slot is scanned at or after the point where
the run's conflict list first becomes non-empty — that is, the conflict list
right after the validator processes that slot is non-empty — then that
slot's `has_conflict` flag is true after the run. Occupied slots scanned
strictly before the first conflict keep their previous flag, so not every
occupied slot is flagged. -/
theorem claim_C2_amended (g : Grid) (pre post : List (String × String)) (d t : String)
    (hsplit : allCells = pre ++ (d, t) :: post)
    (hocc : (g d t).course ≠ none)
    (hconf : (validateCells (pre ++ [(d, t)]) ⟨g, fun _ => none, []⟩).conflicts ≠ []) :
    (((validateSchedule g).1) d t).has_conflict = true := by
  have hnd := allCells_nodup
  rw [hsplit] at hnd
  have hpost : (d, t) ∉ post := (List.nodup_cons.mp hnd.of_append_right).1
  have hmain : (validateSchedule g).1 =
      (validateCells post
        (validateStep (validateCells pre ⟨g, fun _ => none, []⟩) (d, t))).grid := by
    rw [validateSchedule_fst, hsplit]
    simp only [validateCells, List.foldl_append, List.foldl_cons]
  rw [hmain, validateCells_grid_other post _ d t hpost]
  apply validateStep_sets_flag
  · have hf := (validateCells_fields pre ⟨g, fun _ => none, []⟩ d t).1
    exact fun hnone => hocc (hf.symm.trans hnone)
  · have heq : validateCells (pre ++ [(d, t)]) ⟨g, fun _ => none, []⟩ =
        validateStep (validateCells pre ⟨g, fun _ => none, []⟩) (d, t) := by
      simp only [validateCells, List.foldl_append, List.foldl_cons, List.foldl_nil]
    rwa [heq] at hconf

set_option maxRecDepth 100000 in
/-- C2 witness: in `conflictedGrid` the capacity violation is recorded at
Monday 09:30, so that slot's flag is set. -/
theorem claim_C2_amended_witness :
    (((validateSchedule conflictedGrid).1) "Monday" "09:30 - 10:20").has_conflict = true :=
  claim_C2_amended conflictedGrid [("Monday", "08:30 - 09:20")] (allCells.drop 2)
    "Monday" "09:30 - 10:20" (by decide) (by decide) (by decide)

set_option maxRecDepth 100000 in
/-- C2 counterexample: on `conflictedGrid` the validator run produces a
conflict, yet the occupied slot at Monday 08:30 — scanned before the
conflict was recorded — ends with `has_conflict = false`, refuting "every
occupied slot has its flag set". -/
theorem claim_C2_counterexample :
    (validateSchedule conflictedGrid).2 ≠ [] ∧
    ((validateSchedule conflictedGrid).1 "Monday" "08:30 - 09:20").course ≠ none ∧
    ((validateSchedule conflictedGrid).1 "Monday" "08:30 - 09:20").has_conflict = false := by
  decide

/-! ### Case analysis of one placement iteration -/

/-- One course-loop iteration either fails (appending exactly one
`unplaced_course` conflict) or commits the found slot and room. -/
theorem placeCourse_cases (courses : List Course) (rooms : List Room)
    (instructors : List Instructor) (st : PlaceState) (c : Course) :
    (placeCourse courses rooms instructors st c =
      { grid := st.grid, hours := st.hours,
        conflicts := st.conflicts ++
          [Conflict.unplacedCourse c.code ("Could not place " ++ c.code)] } ∧
      findPlacement rooms instructors st c
        (if c.is_lab then findTheoryCourse courses c else none) days = none) ∨
    ∃ d i t room,
      findPlacement rooms instructors st c
        (if c.is_lab then findTheoryCourse courses c else none) days =
          some (d, i, t, room) ∧
      placeCourse courses rooms instructors st c =
        { grid := setSlot st.grid d t
            { st.grid d t with course := some c, room := some room },
          hours := if c.is_lab then st.hours
            else bumpHours st.hours c.instructor_id d,
          conflicts := st.conflicts } := by
  simp only [placeCourse]
  cases hfp : findPlacement rooms instructors st c
      (if c.is_lab then findTheoryCourse courses c else none) days with
  | none => exact Or.inl ⟨rfl, rfl⟩
  | some res =>
    obtain ⟨d, i, t, room⟩ := res
    exact Or.inr ⟨d, i, t, room, rfl, rfl⟩

/-- Unfolding the pipeline: the final grid is the validated placement grid. -/
theorem generateSchedule_fst (courses : List Course) (rooms : List Room)
    (instructors : List Instructor) :
    (generateSchedule courses rooms instructors).1 =
      (validateSchedule (placePhase courses rooms instructors).grid).1 := rfl

/-- Unfolding the pipeline: the final conflict list is the validator's. -/
theorem generateSchedule_conflicts (courses : List Course) (rooms : List Room)
    (instructors : List Instructor) :
    (generateSchedule courses rooms instructors).2.1 =
      (validateSchedule (placePhase courses rooms instructors).grid).2 := rfl

/-- Unfolding the pipeline: the success flag is emptiness of the final list. -/
theorem generateSchedule_flag (courses : List Course) (rooms : List Room)
    (instructors : List Instructor) :
    (generateSchedule courses rooms instructors).2.2 =
      ((validateSchedule (placePhase courses rooms instructors).grid).2).isEmpty := rfl

/-! ### C4: the Friday exam block is never occupied -/

/-- The two Friday exam-block cells are free. -/
def ExamFree (g : Grid) : Prop :=
  (g "Friday" "13:20 - 14:10").course = none ∧
  (g "Friday" "14:20 - 15:10").course = none

/-- A placement iteration cannot write into the Friday exam block. -/
theorem placeCourse_examFree (courses : List Course) (rooms : List Room)
    (instructors : List Instructor) (st : PlaceState) (c : Course)
    (h : ExamFree st.grid) :
    ExamFree (placeCourse courses rooms instructors st c).grid := by
  rcases placeCourse_cases courses rooms instructors st c with
    ⟨heq, -⟩ | ⟨d, i, t, room, hfp, heq⟩
  · rw [heq]; exact h
  · rw [heq]
    obtain ⟨hmem2, hfri, hempty, -, -⟩ := findSlotInDay_spec (findPlacement_spec hfp).2.2
    have hidx := enum_timeSlots_facts hmem2
    dsimp only
    constructor
    · rw [setSlot_ne]
      · exact h.1
      · rintro ⟨h1, h2⟩
        subst h1; subst h2
        have hi4 : i = 4 := by rw [← hidx.2]; decide
        exact hfri ⟨rfl, Or.inl hi4⟩
    · rw [setSlot_ne]
      · exact h.2
      · rintro ⟨h1, h2⟩
        subst h1; subst h2
        have hi5 : i = 5 := by rw [← hidx.2]; decide
        exact hfri ⟨rfl, Or.inr hi5⟩

/-- The whole placement phase keeps the exam block free. -/
theorem placePhase_examFree (courses : List Course) (rooms : List Room)
    (instructors : List Instructor) :
    ExamFree (placePhase courses rooms instructors).grid := by
  have hfold : ∀ (l : List Course) (st : PlaceState), ExamFree st.grid →
      ExamFree ((l.foldl (placeCourse courses rooms instructors) st).grid) := by
    intro l
    induction l with
    | nil => exact fun st h => h
    | cons a l ih =>
      exact fun st h => ih _ (placeCourse_examFree courses rooms instructors st a h)
  exact hfold (sortCourses courses) ⟨initGrid, fun _ _ => 0, []⟩ ⟨rfl, rfl⟩

/-- C4: after the placement routine runs on the initially empty grid (and
the validator finishes), the Friday slots at indices 4 and 5
("13:20 - 14:10", "14:20 - 15:10") hold no course, for every input. -/
theorem claim_C4_exam_block_inviolable : ∀ (courses : List Course) (rooms : List Room)
    (instructors : List Instructor),
    (((generateSchedule courses rooms instructors).1) "Friday" "13:20 - 14:10").course
      = none ∧
    (((generateSchedule courses rooms instructors).1) "Friday" "14:20 - 15:10").course
      = none := by
  intro courses rooms instructors
  have hp := placePhase_examFree courses rooms instructors
  rw [generateSchedule_fst, validateSchedule_fst]
  constructor
  · rw [(validateCells_fields allCells _ "Friday" "13:20 - 14:10").1]
    exact hp.1
  · rw [(validateCells_fields allCells _ "Friday" "14:20 - 15:10").1]
    exact hp.2

/-! ### C7: duplicate-key import and the overlap check -/

/-- When the current `(day, time)` pair was never recorded for the
instructor, the overlap check appends nothing. -/
theorem overlapCheck_skip (isched : Int → Option (List (String × String)))
    (conflicts : List Conflict) (c : Course) (p : String × String)
    (hs : ∀ l, isched c.instructor_id = some l → (p.1, p.2) ∉ l) :
    overlapCheck isched conflicts c p = conflicts := by
  unfold overlapCheck
  cases hl : isched c.instructor_id with
  | none => rfl
  | some l =>
    dsimp only
    rw [if_neg (hs l hl)]

/-- The capacity check never appends an `instructor_overlap` record. -/
theorem capacityCheck_overlap_count (conflicts : List Conflict) (c : Course)
    (room : Option Room) :
    (capacityCheck conflicts c room).countP Conflict.isOverlap =
      conflicts.countP Conflict.isOverlap := by
  unfold capacityCheck
  cases room with
  | none => rfl
  | some r =>
    dsimp only
    split
    · simp [List.countP_append, List.countP_cons, Conflict.isOverlap]
    · rfl

/-- Scanning distinct cells can never see the same `(day, time)` pair twice,
so no `instructor_overlap` conflict is ever emitted: the recorded pairs all
come from already-visited cells, disjoint from the cells still to visit. -/
theorem validateCells_no_overlap (cells : List (String × String)) (st : VState)
    (hnd : cells.Nodup)
    (hc : st.conflicts.countP Conflict.isOverlap = 0)
    (hs : ∀ iid l, st.instSched iid = some l → ∀ q ∈ l, q ∉ cells) :
    (validateCells cells st).conflicts.countP Conflict.isOverlap = 0 := by
  induction cells generalizing st with
  | nil => exact hc
  | cons p rest ih =>
    have hndr : rest.Nodup := (List.nodup_cons.mp hnd).2
    have hpr : p ∉ rest := (List.nodup_cons.mp hnd).1
    simp only [validateCells, List.foldl_cons] at ih ⊢
    cases hco : (st.grid p.1 p.2).course with
    | none =>
      have hstep : validateStep st p = st := by simp only [validateStep, hco]
      rw [hstep]
      exact ih st hndr hc
        (fun iid l h q hq => fun hmem => hs iid l h q hq (List.mem_cons_of_mem _ hmem))
    | some c =>
      have hskip : overlapCheck st.instSched st.conflicts c p = st.conflicts :=
        overlapCheck_skip st.instSched st.conflicts c p
          (fun l hl hmem => hs c.instructor_id l hl p hmem (List.mem_cons_self ..))
      apply ih (validateStep st p) hndr
      · show ((validateStep st p).conflicts).countP Conflict.isOverlap = 0
        simp only [validateStep, hco]
        rw [capacityCheck_overlap_count, hskip]
        exact hc
      · intro iid l h q hq
        have hi : (validateStep st p).instSched =
            setISched st.instSched c.instructor_id
              (prevPairs st.instSched c.instructor_id ++ [(p.1, p.2)]) := by
          simp only [validateStep, hco]
        rw [hi] at h
        unfold setISched at h
        by_cases hiid : iid = c.instructor_id
        · rw [if_pos hiid, Option.some.injEq] at h
          rw [← h] at hq
          rcases List.mem_append.mp hq with hq1 | hq2
          · unfold prevPairs at hq1
            cases hl : st.instSched c.instructor_id with
            | none => rw [hl] at hq1; exact absurd hq1 (List.not_mem_nil q)
            | some l0 =>
              rw [hl] at hq1
              exact fun hmem => hs c.instructor_id l0 hl q hq1
                (List.mem_cons_of_mem _ hmem)
          · have : q = (p.1, p.2) := by
              rcases List.mem_cons.mp hq2 with h | h
              · exact h
              · exact absurd h (List.not_mem_nil q)
            rw [this]
            exact hpr
        · rw [if_neg hiid] at h
          exact fun hmem => hs iid l h q hq (List.mem_cons_of_mem _ hmem)

/-- No grid can make the validator emit an `instructor_overlap` conflict:
the grid dictionary holds one course per `(day, time)` key and the scan
visits each key once. -/
theorem validateSchedule_no_overlap (g : Grid) :
    ((validateSchedule g).2).countP Conflict.isOverlap = 0 := by
  rw [validateSchedule_snd]
  exact validateCells_no_overlap allCells _ allCells_nodup rfl
    (fun iid l h => Option.noConfusion h)

/-- A second theory course of the same instructor, used to instantiate the
duplicate-import scenario. -/
def sampleTheoryB : Course := ⟨"BBB", "Course B", 1, 1, false, false, 1⟩

/-- The external import of the C7 scenario: two writes to the same slot key
`("Monday", "08:30 - 09:20")`; the second overwrites the first, as in a
Python dict. -/
def importTwice (c1 c2 : Course) : Grid :=
  setSlot
    (setSlot initGrid "Monday" "08:30 - 09:20"
      { initGrid "Monday" "08:30 - 09:20" with course := some c1, room := none })
    "Monday" "08:30 - 09:20"
    { initGrid "Monday" "08:30 - 09:20" with course := some c2, room := none }

/-- C7 (amended): importing two different courses of one instructor under
the duplicate slot key `("Monday","08:30 - 09:20")` and re-validating
surfaces zero `instructor_overlap` conflicts (not one): the duplicate key
overwrites, and the validator cannot see the same pair twice. -/
theorem claim_C7_amended : ∀ c1 c2 : Course,
    ((validateSchedule (importTwice c1 c2)).2).countP Conflict.isOverlap = 0 :=
  fun c1 c2 => validateSchedule_no_overlap (importTwice c1 c2)

set_option maxRecDepth 100000 in
/-- C7 counterexample: for two concrete distinct courses of the same
instructor imported under the duplicate key, re-validation does not
produce exactly one `instructor_overlap` conflict (it produces none). -/
theorem claim_C7_counterexample :
    sampleTheory ≠ sampleTheoryB ∧
    sampleTheory.instructor_id = sampleTheoryB.instructor_id ∧
    ¬(((validateSchedule (importTwice sampleTheory sampleTheoryB)).2).countP
        Conflict.isOverlap = 1) := by
  decide

/-! ### C5: the per-instructor daily theory cap -/

/-- Whether the slot at `(d, t)` holds a theory session of instructor `iid`. -/
def theoryAt (g : Grid) (iid : Int) (d : String) (t : String) : Bool :=
  match (g d t).course with
  | some c => !c.is_lab && decide (c.instructor_id = iid)
  | none => false

/-- How many theory (non-lab) sessions of instructor `iid` the grid holds
on day `d`. -/
def countTheory (g : Grid) (iid : Int) (d : String) : Nat :=
  timeSlots.countP (theoryAt g iid d)

/-- The theory indicator only looks at the cell itself. -/
theorem theoryAt_congr {g g' : Grid} (iid : Int) (d t : String)
    (h : g d t = g' d t) : theoryAt g iid d t = theoryAt g' iid d t := by
  unfold theoryAt
  rw [h]

/-- Counting with predicates that agree on the list gives equal counts. -/
theorem countP_congr_local (l : List String) (p q : String → Bool)
    (h : ∀ x ∈ l, p x = q x) : l.countP p = l.countP q := by
  induction l with
  | nil => rfl
  | cons a rest ih =>
    rw [List.countP_cons, List.countP_cons, h a (List.mem_cons_self ..),
      ih (fun x hx => h x (List.mem_cons_of_mem _ hx))]

/-- Exchange rule for a count when the predicate changes at exactly one
element of a duplicate-free list. -/
theorem countP_update (l : List String) (t : String) (p q : String → Bool)
    (hnd : l.Nodup) (ht : t ∈ l)
    (hagree : ∀ x ∈ l, x ≠ t → p x = q x) :
    l.countP q + (if p t then 1 else 0) = l.countP p + (if q t then 1 else 0) := by
  induction l with
  | nil => cases ht
  | cons a rest ih =>
    have hnda := List.nodup_cons.mp hnd
    rcases List.mem_cons.mp ht with rfl | hmem
    · have hpq : rest.countP p = rest.countP q :=
        countP_congr_local rest p q (fun x hx =>
          hagree x (List.mem_cons_of_mem _ hx) (fun hxa => hnda.1 (hxa ▸ hx)))
      rw [List.countP_cons, List.countP_cons, hpq]
      omega
    · have ha : p a = q a :=
        hagree a (List.mem_cons_self ..) (fun hat => hnda.1 (hat ▸ hmem))
      have hrest := ih hnda.2 hmem
        (fun x hx hxt => hagree x (List.mem_cons_of_mem _ hx) hxt)
      rw [List.countP_cons, List.countP_cons, ha]
      omega

/-- One placement iteration keeps the daily-hours dict equal to the actual
per-day theory count in the grid, and keeps it at most 4. -/
theorem placeCourse_hours_inv (courses : List Course) (rooms : List Room)
    (instructors : List Instructor) (st : PlaceState) (c : Course)
    (hinv : ∀ iid d, countTheory st.grid iid d = st.hours iid d ∧
      st.hours iid d ≤ 4) :
    ∀ iid d, countTheory (placeCourse courses rooms instructors st c).grid iid d =
      (placeCourse courses rooms instructors st c).hours iid d ∧
      (placeCourse courses rooms instructors st c).hours iid d ≤ 4 := by
  rcases placeCourse_cases courses rooms instructors st c with
    ⟨heq, -⟩ | ⟨d0, i0, t0, room, hfp, heq⟩
  · rw [heq]; exact hinv
  · intro iid d
    rw [heq]; dsimp only
    obtain ⟨hmem2, -, hempty, -, hlim⟩ := findSlotInDay_spec (findPlacement_spec hfp).2.2
    obtain ⟨htmem, -⟩ := enum_timeSlots_facts hmem2
    set g' : Grid := setSlot st.grid d0 t0
      { st.grid d0 t0 with course := some c, room := some room } with hg'
    have hother : ∀ x, ¬(d = d0 ∧ x = t0) →
        theoryAt st.grid iid d x = theoryAt g' iid d x := by
      intro x hxt
      exact theoryAt_congr iid d x (setSlot_ne _ _ _ _ _ _ hxt).symm
    by_cases hd : d = d0
    · subst hd
      have hat0 : theoryAt st.grid iid d t0 = false := by
        unfold theoryAt
        rw [hempty]
      cases hcl : c.is_lab with
      | true =>
        have hagree : ∀ x ∈ timeSlots,
            theoryAt st.grid iid d x = theoryAt g' iid d x := by
          intro x hx
          by_cases hxt : x = t0
          · subst hxt
            rw [hat0]
            unfold theoryAt
            rw [hg', setSlot_same]
            dsimp only
            rw [hcl]
            rfl
          · exact hother x (fun hc => hxt hc.2)
        have hcnt : countTheory g' iid d = countTheory st.grid iid d :=
          (countP_congr_local timeSlots _ _ hagree).symm
        rw [if_pos (rfl : (true : Bool) = true), hcnt]
        exact hinv iid d
      | false =>
        rw [if_neg (show ¬((false : Bool) = true) from fun h => nomatch h)]
        by_cases hiid : iid = c.instructor_id
        · subst hiid
          have hq0 : theoryAt g' c.instructor_id d t0 = true := by
            unfold theoryAt
            rw [hg', setSlot_same]
            dsimp only
            rw [hcl]
            simp
          have hup := countP_update timeSlots t0
            (theoryAt st.grid c.instructor_id d) (theoryAt g' c.instructor_id d)
            timeSlots_nodup htmem
            (fun x hx hxt => hother x (fun hc => hxt hc.2))
          rw [hat0, hq0] at hup
          rw [if_neg (show ¬((false : Bool) = true) from fun h => nomatch h),
            if_pos (rfl : (true : Bool) = true)] at hup
          have hcnt : countTheory g' c.instructor_id d =
              countTheory st.grid c.instructor_id d + 1 := by
            unfold countTheory
            omega
          have hbump : bumpHours st.hours c.instructor_id d c.instructor_id d =
              st.hours c.instructor_id d + 1 := by
            unfold bumpHours
            rw [if_pos (And.intro rfl rfl)]
          rw [hcnt, hbump, (hinv c.instructor_id d).1]
          have hlt := hlim hcl
          omega
        · have hagree : ∀ x ∈ timeSlots,
              theoryAt st.grid iid d x = theoryAt g' iid d x := by
            intro x hx
            by_cases hxt : x = t0
            · subst hxt
              rw [hat0]
              unfold theoryAt
              rw [hg', setSlot_same]
              dsimp only
              rw [hcl]
              simp only [Bool.not_false, Bool.true_and]
              exact (decide_eq_false (fun hcc => hiid hcc.symm)).symm
            · exact hother x (fun hc => hxt hc.2)
          have hcnt : countTheory g' iid d = countTheory st.grid iid d :=
            (countP_congr_local timeSlots _ _ hagree).symm
          have hbump : bumpHours st.hours c.instructor_id d iid d =
              st.hours iid d := by
            unfold bumpHours
            rw [if_neg (fun hcc => hiid hcc.1)]
          rw [hcnt, hbump]
          exact hinv iid d
    · have hcnt : countTheory g' iid d = countTheory st.grid iid d :=
        (countP_congr_local timeSlots _ _
          (fun x hx => hother x (fun hc => hd hc.1))).symm
      have hhrs : (if c.is_lab = true then st.hours
          else bumpHours st.hours c.instructor_id d0) iid d = st.hours iid d := by
        split
        · rfl
        · unfold bumpHours
          rw [if_neg (fun hcc => hd hcc.2)]
      rw [hcnt, hhrs]
      exact hinv iid d

/-- The placement phase maintains the count/hours invariant from the empty
grid. -/
theorem placePhase_hours_inv (courses : List Course) (rooms : List Room)
    (instructors : List Instructor) :
    ∀ iid d, countTheory (placePhase courses rooms instructors).grid iid d =
      (placePhase courses rooms instructors).hours iid d ∧
      (placePhase courses rooms instructors).hours iid d ≤ 4 := by
  have hfold : ∀ (l : List Course) (st : PlaceState),
      (∀ iid d, countTheory st.grid iid d = st.hours iid d ∧ st.hours iid d ≤ 4) →
      ∀ iid d, countTheory ((l.foldl (placeCourse courses rooms instructors) st)).grid iid d =
        (l.foldl (placeCourse courses rooms instructors) st).hours iid d ∧
        (l.foldl (placeCourse courses rooms instructors) st).hours iid d ≤ 4 := by
    intro l
    induction l with
    | nil => exact fun st h => h
    | cons a l ih =>
      exact fun st h => ih _ (placeCourse_hours_inv courses rooms instructors st a h)
  exact hfold (sortCourses courses) ⟨initGrid, fun _ _ => 0, []⟩
    (fun iid d => ⟨rfl, Nat.zero_le 4⟩)

/-- Instructor available on Monday only (boundary scenario for the cap). -/
def mondayInstructor : Instructor := ⟨1, "Dr. Monday", ["Monday"]⟩

/-- Five theory courses of the same instructor (boundary scenario). -/
def fiveTheories : List Course :=
  [⟨"T1", "T1", 1, 1, false, false, 1⟩, ⟨"T2", "T2", 1, 1, false, false, 1⟩,
   ⟨"T3", "T3", 1, 1, false, false, 1⟩, ⟨"T4", "T4", 1, 1, false, false, 1⟩,
   ⟨"T5", "T5", 1, 1, false, false, 1⟩]

set_option maxRecDepth 100000 in
/-- C5: after a run on the empty grid, every instructor has at most 4 theory
placements per day (labs never enter the counter); and the boundary is
exactly 4: with five same-instructor theory courses and one available day,
four are placed on that day and the fifth is refused, ending as an
`unplaced_course` conflict of the placement phase. -/
theorem claim_C5_daily_theory_cap :
    (∀ (courses : List Course) (rooms : List Room) (instructors : List Instructor)
      (iid : Int) (d : String),
      countTheory (generateSchedule courses rooms instructors).1 iid d ≤ 4) ∧
    countTheory (generateSchedule fiveTheories [okRoom] [mondayInstructor]).1
      1 "Monday" = 4 ∧
    Conflict.unplacedCourse "T5" "Could not place T5" ∈
      (placePhase fiveTheories [okRoom] [mondayInstructor]).conflicts := by
  refine ⟨?_, by decide, by decide⟩
  intro courses rooms instructors iid d
  have hinv := placePhase_hours_inv courses rooms instructors iid d
  have hcount : countTheory (generateSchedule courses rooms instructors).1 iid d =
      countTheory (placePhase courses rooms instructors).grid iid d := by
    unfold countTheory
    apply countP_congr_local
    intro x hx
    unfold theoryAt
    rw [generateSchedule_fst, validateSchedule_fst,
      (validateCells_fields allCells _ d x).1]
  rw [hcount, hinv.1]
  exact hinv.2

/-! ### C6: labs follow their paired theory course -/

/-- Invariant: every placed lab with a resolvable theory pairing has the
paired theory course placed earlier on the same day. -/
def LabInv (courses : List Course) (g : Grid) : Prop :=
  ∀ d t c T, (g d t).course = some c → c.is_lab = true →
    findTheoryCourse courses c = some T →
    ∃ t', (g d t').course = some T ∧
      timeSlots.indexOf t' < timeSlots.indexOf t

/-- One placement iteration preserves the lab-after-theory invariant. -/
theorem placeCourse_labInv (courses : List Course) (rooms : List Room)
    (instructors : List Instructor) (st : PlaceState) (c : Course)
    (hinv : LabInv courses st.grid) :
    LabInv courses (placeCourse courses rooms instructors st c).grid := by
  rcases placeCourse_cases courses rooms instructors st c with
    ⟨heq, -⟩ | ⟨d0, i0, t0, room, hfp, heq⟩
  · rw [heq]; exact hinv
  · rw [heq]; dsimp only
    obtain ⟨hmem2, -, hempty, hlab, -⟩ := findSlotInDay_spec (findPlacement_spec hfp).2.2
    obtain ⟨htmem, hidx⟩ := enum_timeSlots_facts hmem2
    intro d t c1 T hc1 hcl hT
    by_cases hdt : d = d0 ∧ t = t0
    · obtain ⟨rfl, rfl⟩ := hdt
      rw [setSlot_same] at hc1
      dsimp only at hc1
      rw [Option.some.injEq] at hc1
      subst hc1
      have hthe : (if c.is_lab = true then findTheoryCourse courses c else none) =
          some T := by
        rw [if_pos hcl, hT]
      have hfol := hlab T hcl hthe
      unfold labFollowsTheory at hfol
      cases hfind : timeSlots.enum.find?
          (fun p => (st.grid d p.2).course = some T) with
      | none =>
        rw [hfind] at hfol
        exact absurd hfol (by simp)
      | some pr =>
        obtain ⟨i1, t1⟩ := pr
        rw [hfind] at hfol
        have hlt : i1 < i0 := of_decide_eq_true hfol
        have hprmem : (i1, t1) ∈ timeSlots.enum := List.mem_of_find?_eq_some hfind
        have hpred := List.find?_some hfind
        simp only [decide_eq_true_eq] at hpred
        have hcourse : (st.grid d t1).course = some T := hpred
        have hfacts := enum_timeSlots_facts hprmem
        refine ⟨t1, ?_, ?_⟩
        · rw [setSlot_ne]
          · exact hcourse
          · rintro ⟨-, rfl⟩
            rw [hempty] at hcourse
            exact Option.noConfusion hcourse
        · rw [hfacts.2, hidx]
          exact hlt
    · rw [setSlot_ne _ _ _ _ _ _ hdt] at hc1
      obtain ⟨t', hT', hlt⟩ := hinv d t c1 T hc1 hcl hT
      refine ⟨t', ?_, hlt⟩
      by_cases hdt' : d = d0 ∧ t' = t0
      · obtain ⟨rfl, rfl⟩ := hdt'
        rw [hempty] at hT'
        exact absurd hT' (fun h => Option.noConfusion h)
      · rw [setSlot_ne _ _ _ _ _ _ hdt']
        exact hT'

/-- The placement phase establishes the lab-after-theory invariant. -/
theorem placePhase_labInv (courses : List Course) (rooms : List Room)
    (instructors : List Instructor) :
    LabInv courses (placePhase courses rooms instructors).grid := by
  have hfold : ∀ (l : List Course) (st : PlaceState), LabInv courses st.grid →
      LabInv courses ((l.foldl (placeCourse courses rooms instructors) st)).grid := by
    intro l
    induction l with
    | nil => exact fun st h => h
    | cons a l ih =>
      exact fun st h => ih _ (placeCourse_labInv courses rooms instructors st a h)
  exact hfold (sortCourses courses) ⟨initGrid, fun _ _ => 0, []⟩
    (fun d t c T hc => absurd hc (fun h => Option.noConfusion h))

/-- C6: in the final schedule, a placed lab whose theory pairing resolves
has the paired theory course on the same day at a strictly smaller
time-slot index. -/
theorem claim_C6_lab_after_theory (courses : List Course) (rooms : List Room)
    (instructors : List Instructor) (d t : String) (c T : Course)
    (h1 : ((generateSchedule courses rooms instructors).1 d t).course = some c)
    (h2 : c.is_lab = true)
    (h3 : findTheoryCourse courses c = some T) :
    ∃ t', ((generateSchedule courses rooms instructors).1 d t').course = some T ∧
      timeSlots.indexOf t' < timeSlots.indexOf t := by
  rw [generateSchedule_fst, validateSchedule_fst] at h1
  rw [(validateCells_fields allCells _ d t).1] at h1
  obtain ⟨t', hT', hlt⟩ := placePhase_labInv courses rooms instructors d t c T h1 h2 h3
  refine ⟨t', ?_, hlt⟩
  rw [generateSchedule_fst, validateSchedule_fst,
    (validateCells_fields allCells _ d t').1]
  exact hT'

/-- The paired theory course of the C6 witness scenario. -/
def cs101 : Course := ⟨"CS101", "Intro to CS", 1, 1, false, false, 1⟩

/-- A lab room within the 40-student cap. -/
def labRoom : Room := ⟨"LAB1", 30, true⟩

set_option maxRecDepth 100000 in
/-- C6 witness: scheduling CS101 and its lab CS101L for one instructor puts
the lab at Monday 09:30 with the theory course strictly earlier that day. -/
theorem claim_C6_lab_after_theory_witness :
    ∃ t', ((generateSchedule [cs101, sampleLab] [okRoom, labRoom]
        [mondayInstructor]).1 "Monday" t').course = some cs101 ∧
      timeSlots.indexOf t' < timeSlots.indexOf "09:30 - 10:20" :=
  claim_C6_lab_after_theory [cs101, sampleLab] [okRoom, labRoom] [mondayInstructor]
    "Monday" "09:30 - 10:20" sampleLab cs101 (by decide) (by decide) (by decide)

/-! ### C3: what the lab-code stripping actually removes -/

/-- Removing only trailing `'L'` characters — the stripping described by the
spec sentence, written out for comparison with the source's `removeAllL`. -/
def stripTrailingL (s : String) : String :=
  String.mk ((s.data.reverse.dropWhile (fun ch => ch = 'L')).reverse)

/-- A theory course whose code is the lab code below with every `'L'`
removed. -/
def thCS1 : Course := ⟨"CS1", "Theory CS1", 1, 1, false, false, 1⟩

/-- A lab course with an interior `'L'` in its code. -/
def labCLS1L : Course := ⟨"CLS1L", "Lab CLS1L", 1, 1, true, false, 1⟩

/-- C3 counterexample: for the lab `"CLS1L"` the engine resolves the theory
course `"CS1"`, although `"CS1"` neither equals the trailing-stripped code
`"CLS1"` nor has it as a prefix — so interior `'L'` characters are removed
by the stripping, contrary to the claim. -/
theorem claim_C3_counterexample :
    findTheoryCourse [thCS1, labCLS1L] labCLS1L = some thCS1 ∧
    thCS1.code ≠ stripTrailingL labCLS1L.code ∧
    codeStartsWith thCS1.code (stripTrailingL labCLS1L.code) = false := by
  decide

/-- C3 (amended): the paired theory course resolved by the engine is a
non-lab course sharing the lab's `instructor_id` whose code exactly matches
or, failing that, starts with the lab's code with ALL `'L'` characters
removed (interior ones included) and whitespace stripped. -/
theorem claim_C3_theory_pairing (courses : List Course) (lab T : Course)
    (h : findTheoryCourse courses lab = some T) :
    T.is_lab = false ∧ T.instructor_id = lab.instructor_id ∧
    (T.code = stripEnds (removeAllL lab.code) ∨
      codeStartsWith T.code (stripEnds (removeAllL lab.code)) = true) := by
  simp only [findTheoryCourse] at h
  cases h1 : courses.find? (fun c =>
      !c.is_lab && c.code = stripEnds (removeAllL lab.code) &&
        c.instructor_id = lab.instructor_id) with
  | some c =>
    rw [h1, Option.some.injEq] at h
    subst h
    have hp := List.find?_some h1
    simp only [Bool.and_eq_true, Bool.not_eq_true', decide_eq_true_eq] at hp
    exact ⟨hp.1.1, hp.2, Or.inl hp.1.2⟩
  | none =>
    rw [h1] at h
    have hp := List.find?_some h
    simp only [Bool.and_eq_true, Bool.not_eq_true', decide_eq_true_eq] at hp
    exact ⟨hp.1.1, hp.2, Or.inr hp.1.2⟩

/-- C3 witness: the engine pairs the lab `"CS101L"` with the theory course
`"CS101"`, which satisfies the all-`'L'`-stripped matching rule. -/
theorem claim_C3_theory_pairing_witness :
    cs101.is_lab = false ∧ cs101.instructor_id = sampleLab.instructor_id ∧
    (cs101.code = stripEnds (removeAllL sampleLab.code) ∨
      codeStartsWith cs101.code (stripEnds (removeAllL sampleLab.code)) = true) :=
  claim_C3_theory_pairing [cs101, sampleLab] sampleLab cs101 (by decide)

/-! ### C8: unknown instructor ids degrade gracefully, construction never fails -/

/-- A course referencing instructor id 9, which no instructor list below
contains. -/
def ghostCourse : Course := ⟨"GH1", "Ghost Course", 9, 1, false, false, 1⟩

/-- Membership is preserved by the stable insertion. -/
theorem mem_insertCourse (a x : Course) (l : List Course) :
    x ∈ insertCourse a l ↔ x = a ∨ x ∈ l := by
  induction l with
  | nil => simp [insertCourse]
  | cons b rest ih =>
    unfold insertCourse
    split
    · simp [List.mem_cons]
    · simp only [List.mem_cons, ih]
      tauto

/-- Membership is preserved by the course sort. -/
theorem mem_sortCourses (c : Course) (l : List Course) (h : c ∈ l) :
    c ∈ sortCourses l := by
  induction l with
  | nil => cases h
  | cons a rest ih =>
    show c ∈ insertCourse a (sortCourses rest)
    rcases List.mem_cons.mp h with rfl | hmem
    · exact (mem_insertCourse c c _).mpr (Or.inl rfl)
    · exact (mem_insertCourse a c _).mpr (Or.inr (ih hmem))

/-- With an unknown instructor id every day is skipped, so the scan fails. -/
theorem findPlacement_unknown (rooms : List Room) (instructors : List Instructor)
    (st : PlaceState) (c : Course) (theory : Option Course)
    (h : getInstructor instructors c.instructor_id = none) :
    ∀ dl : List String, findPlacement rooms instructors st c theory dl = none := by
  intro dl
  induction dl with
  | nil => rfl
  | cons d0 rest ih =>
    rw [findPlacement_cons]
    have hav : isInstructorAvailable instructors c.instructor_id d0 = false := by
      unfold isInstructorAvailable
      rw [h]
    have hcond : (!isInstructorAvailable instructors c.instructor_id d0) = true := by
      rw [hav]; rfl
    rw [if_pos hcond]
    exact ih

/-- A course with an unknown instructor id is recorded as unplaced. -/
theorem placeCourse_unknown (courses : List Course) (rooms : List Room)
    (instructors : List Instructor) (st : PlaceState) (c : Course)
    (h : getInstructor instructors c.instructor_id = none) :
    placeCourse courses rooms instructors st c =
      { grid := st.grid, hours := st.hours,
        conflicts := st.conflicts ++
          [Conflict.unplacedCourse c.code ("Could not place " ++ c.code)] } := by
  rcases placeCourse_cases courses rooms instructors st c with
    ⟨heq, -⟩ | ⟨d, i, t, room, hfp, -⟩
  · exact heq
  · rw [findPlacement_unknown rooms instructors st c _ h days] at hfp
    exact Option.noConfusion hfp

/-- Placement iterations never drop recorded conflicts. -/
theorem placeCourse_conflicts_mono (courses : List Course) (rooms : List Room)
    (instructors : List Instructor) (st : PlaceState) (c : Course) (x : Conflict)
    (hx : x ∈ st.conflicts) :
    x ∈ (placeCourse courses rooms instructors st c).conflicts := by
  rcases placeCourse_cases courses rooms instructors st c with
    ⟨heq, -⟩ | ⟨d, i, t, room, -, heq⟩ <;> rw [heq]
  · exact List.mem_append_left _ hx
  · exact hx

/-- The placement fold never drops recorded conflicts. -/
theorem placeFold_mono (courses : List Course) (rooms : List Room)
    (instructors : List Instructor) (l : List Course) (st : PlaceState)
    (x : Conflict) (hx : x ∈ st.conflicts) :
    x ∈ (l.foldl (placeCourse courses rooms instructors) st).conflicts := by
  induction l generalizing st with
  | nil => exact hx
  | cons b rest ih =>
    exact ih _ (placeCourse_conflicts_mono courses rooms instructors st b x hx)

/-- Every course of the fold's list with an unknown instructor ends in the
conflict list of the fold's result. -/
theorem placeFold_unplaced (courses : List Course) (rooms : List Room)
    (instructors : List Instructor) (l : List Course) (c : Course)
    (h : getInstructor instructors c.instructor_id = none) :
    ∀ st : PlaceState, c ∈ l →
      Conflict.unplacedCourse c.code ("Could not place " ++ c.code) ∈
        (l.foldl (placeCourse courses rooms instructors) st).conflicts := by
  induction l with
  | nil => intro st hmem; cases hmem
  | cons a rest ih =>
    intro st hmem
    rw [List.foldl_cons]
    rcases List.mem_cons.mp hmem with rfl | hmem2
    · apply placeFold_mono
      rw [placeCourse_unknown courses rooms instructors st c h]
      exact List.mem_append_right _ (List.mem_singleton.mpr rfl)
    · exact ih _ hmem2

/-- C8 counterexample: building the engine over a course whose instructor id
is unknown succeeds (there is no construction-time failure at all): the
lookup yields `none`, placement gracefully records an `unplaced_course`
conflict, and the whole run completes — even reporting success, since the
validator then clears the conflict list. -/
theorem claim_C8_counterexample :
    getInstructor [] ghostCourse.instructor_id = none ∧
    (placePhase [ghostCourse] [okRoom] []).conflicts =
      [Conflict.unplacedCourse "GH1" "Could not place GH1"] ∧
    (generateSchedule [ghostCourse] [okRoom] []).2.2 = true := by
  decide

/-- C8 (amended): construction never fails; a course referencing an unknown
instructor id takes the same graceful path as one whose instructor has an
empty availability list — every placement attempt fails and the course is
recorded as an `unplaced_course` conflict during the placement phase,
without a crash. -/
theorem claim_C8_unknown_instructor (courses : List Course) (rooms : List Room)
    (instructors : List Instructor) (c : Course)
    (hmem : c ∈ courses)
    (hunknown : getInstructor instructors c.instructor_id = none) :
    Conflict.unplacedCourse c.code ("Could not place " ++ c.code) ∈
      (placePhase courses rooms instructors).conflicts :=
  placeFold_unplaced courses rooms instructors (sortCourses courses) c hunknown
    ⟨initGrid, fun _ _ => 0, []⟩ (mem_sortCourses c courses hmem)

/-- C8 witness: the ghost course's conflict is present after placement. -/
theorem claim_C8_unknown_instructor_witness :
    Conflict.unplacedCourse "GH1" "Could not place GH1" ∈
      (placePhase [ghostCourse] [okRoom] []).conflicts :=
  claim_C8_unknown_instructor [ghostCourse] [okRoom] [] ghostCourse
    (by decide) (by decide)

/-! ### C1: unplaced-course conflicts are wiped by the validator -/

/-- An instructor with an empty availability list. -/
def idleInstructor : Instructor := ⟨7, "Dr. Idle", []⟩

/-- A course taught by the idle instructor; it can never be placed. -/
def strandedCourse : Course := ⟨"ST1", "Stranded Course", 7, 1, false, false, 1⟩

/-- C1 (code bug, evaluated at the failing input): the placement phase
records the `unplaced_course` conflict for the unplaceable course, but the
validator invoked at the end of `generate_schedule` resets the conflict
list, so the final conflict list is empty and the routine even returns
success — the unplaced-course conflict is lost, not preserved. -/
theorem claim_C1_unplaced_conflict_lost :
    (placePhase [strandedCourse] [okRoom] [idleInstructor]).conflicts =
      [Conflict.unplacedCourse "ST1" "Could not place ST1"] ∧
    (generateSchedule [strandedCourse] [okRoom] [idleInstructor]).2.1 = [] ∧
    (generateSchedule [strandedCourse] [okRoom] [idleInstructor]).2.2 = true := by
  decide

end BeePlan
